import Mathlib

/-!
Verification of the draft/media aggregation model, payload resolver, timer
parser and scheduler of the channel post-editor bot (`app.py`).

The Python source is shallowly embedded:
* `Draft`, `add_media_to_draft`, `draft_to_media_group`, `parse_when` are
  translated directly as pure Lean functions.
* Mutable process state (`DRAFTS`, `SCHEDULES`, the asyncio tasks created by
  `cmd_timer`, and the heap of Python list objects held in `Draft.media`)
  is modelled as an explicit `Sys` state with step functions, one per
  handler.  Python's in-place `list.append` versus rebinding
  (`draft.media = ...`) is modelled with an explicit heap of list cells so
  that the aliasing behaviour of `Draft.copy` is captured faithfully.
* Fallible transport calls are passed in as `Except String Unit` outcomes;
  an uncaught Python exception is an `Except.error` result.
-/

namespace Postbot

/-- Media kinds accepted by the handlers (`on_photo` .. `on_voice`). -/
inductive Kind where
  | photo
  | video
  | document
  | animation
  | audio
  | voice
deriving DecidableEq, Repr

/-- `kind in ("photo", "video")` — the album-forming kinds. -/
def isPV (k : Kind) : Bool := k == Kind.photo || k == Kind.video

/-- One element of `Draft.media`: a `(kind, file_id)` pair. -/
abbrev Entry := Kind × String

/-- The `Draft` dataclass: free text plus the ordered media list. -/
structure Draft where
  text : String := ""
  media : List Entry := []
deriving DecidableEq, Repr

/-- `Draft.is_empty`: `not self.text and not self.media`. -/
def Draft.is_empty (d : Draft) : Bool := d.text == "" && d.media.isEmpty

/-- Python slicing `l[-10:]` generalised: the last `n` elements of `l`
(whole list when `l` is shorter than `n`). -/
def lastN (n : Nat) (l : List α) : List α := l.drop (l.length - n)

/-- The collapse loop of `add_media_to_draft`'s non-photo/video branch,
run over the reversed media list: keep every photo/video entry, and keep a
non-photo/video entry only the first time (in reversed order, i.e. the most
recent occurrence) its kind is met; `seen` is the set of kinds already kept. -/
def collapseRev : List Entry → List Kind → List Entry
  | [], _ => []
  | (k, fid) :: rest, seen =>
    if isPV k then (k, fid) :: collapseRev rest seen
    else if k ∈ seen then collapseRev rest seen
    else (k, fid) :: collapseRev rest (k :: seen)

/-- The value the `draft.media` attribute is rebound to by
`add_media_to_draft`, given the list `l1` right after `append`:
photo/video keep the last 10 entries (`draft.media[-10:]`), other kinds run
the collapse pass (`list(reversed(new_media))`). -/
def mediaAfterAppend (k : Kind) (l1 : List Entry) : List Entry :=
  if isPV k then lastN 10 l1 else (collapseRev l1.reverse []).reverse

/-- `add_media_to_draft(draft, kind, file_id)` as a value-level function on
drafts (the heap-level version below reuses it). -/
def add_media_to_draft (d : Draft) (k : Kind) (fid : String) : Draft :=
  { d with media := mediaAfterAppend k (d.media ++ [(k, fid)]) }

/-- Count of photo/video entries in a media list. -/
def countPV (l : List Entry) : Nat := l.countP (fun e => isPV e.1)

/-! ## Payload resolver (`draft_to_media_group` / `publish_to_channel`) -/

/-- One album element as built in `draft_to_media_group`
(`InputMediaPhoto`/`InputMediaVideo`; the class is selected by `kind`).
`parseHTML` records `parse_mode=ParseMode.HTML if caption else None` —
true exactly when the caption is a non-empty string. -/
structure MediaItem where
  kind : Kind
  media : String
  caption : Option String
  parseHTML : Bool
deriving DecidableEq, Repr

/-- The loop body of `draft_to_media_group`: element `idx` of the
photo/video sub-list gets the draft text as caption only at index 0. -/
def mkItem (t : String) (idx : Nat) (e : Entry) : MediaItem :=
  let caption : Option String := if idx == 0 then some t else none
  { kind := e.1
    media := e.2
    caption := caption
    parseHTML := match caption with
      | some c => c != ""
      | none => false }

/-- `draft_to_media_group(d)`: the photo/video entries in arrival order,
an album only when there are at least two of them. -/
def draft_to_media_group (d : Draft) : Option (List MediaItem) :=
  let pv := d.media.filter (fun e => isPV e.1)
  if pv.length < 2 then none
  else some (pv.enum.map (fun ie => mkItem d.text ie.1 ie.2))

/-- A transport-ready publish plan.  `nothingToPublish` is the case the
caller (`on_cb`, branch `"pub"`) refuses before calling
`publish_to_channel`.  The single-item sends of `publish_to_channel`
always pass `parse_mode=ParseMode.HTML`, so no flag is recorded there. -/
inductive PublishPlan where
  | album (items : List MediaItem)
  | single (kind : Kind) (media : String) (caption : Option String)
  | textMsg (text : String)
  | nothingToPublish
deriving DecidableEq, Repr

/-- The composite publish dispatch: `on_cb`'s `d.is_empty()` refusal
followed by `publish_to_channel`'s group / last-media / text cascade
(`caption=d.text or None` makes an empty text a `None` caption). -/
def resolvePublish (d : Draft) : PublishPlan :=
  if d.is_empty then PublishPlan.nothingToPublish
  else
    match draft_to_media_group d with
    | some items => PublishPlan.album items
    | none =>
      match d.media.getLast? with
      | some e =>
          PublishPlan.single e.1 e.2 (if d.text == "" then none else some d.text)
      | none => PublishPlan.textMsg d.text

/-- The payload resolution exactly as the specification words it
(four-way case split on the photo/video count, then media, then text);
compared with `resolvePublish` in the C4 theorem. -/
def resolveSpec (d : Draft) : PublishPlan :=
  let pv := d.media.filter (fun e => isPV e.1)
  if 2 ≤ pv.length then
    PublishPlan.album
      (match pv with
       | [] => []
       | e :: rest =>
           { kind := e.1, media := e.2, caption := some d.text,
             parseHTML := d.text != "" } ::
           rest.map (fun e' =>
             { kind := e'.1, media := e'.2, caption := none, parseHTML := false }))
  else if d.media ≠ [] then
    match d.media.getLast? with
    | some e =>
        PublishPlan.single e.1 e.2 (if d.text == "" then none else some d.text)
    | none => PublishPlan.nothingToPublish
  else if d.text ≠ "" then
    PublishPlan.textMsg d.text
  else
    PublishPlan.nothingToPublish

/-! ## Datetimes (`datetime` with the fixed `LOCAL_TZ`)

All datetimes in the program carry the same fixed time zone
(`ZoneInfo("Europe/Amsterdam")`), so they are modelled by their wall-clock
components; comparison is componentwise-lexicographic and day arithmetic is
calendar arithmetic (daylight-saving shifts and the year-9999 overflow of
`datetime` arithmetic are abstracted away — no claim depends on them). -/

structure PyDateTime where
  year : Nat
  month : Nat
  day : Nat
  hour : Nat
  minute : Nat
  second : Nat
  microsecond : Nat
deriving DecidableEq, Repr

/-- Leap year rule of the proleptic Gregorian calendar. -/
def isLeap (y : Nat) : Bool := y % 4 == 0 && (y % 100 != 0 || y % 400 == 0)

def daysInMonth (y m : Nat) : Nat :=
  if m == 2 then (if isLeap y then 29 else 28)
  else if m == 4 || m == 6 || m == 9 || m == 11 then 30
  else 31

/-- The validation performed by the `datetime` constructor (year range
`MINYEAR..MAXYEAR`, month, day, hour, minute). -/
def validDT (y mo d hh mm : Nat) : Bool :=
  1 ≤ y && y ≤ 9999 && 1 ≤ mo && mo ≤ 12 && 1 ≤ d && d ≤ daysInMonth y mo
    && hh ≤ 23 && mm ≤ 59

/-- `datetime(y, mo, d, hh, mm, tzinfo=...)`: raises `ValueError` on
out-of-range components. -/
def mkDatetime (y mo d hh mm : Nat) : Except String PyDateTime :=
  if validDT y mo d hh mm then
    Except.ok ⟨y, mo, d, hh, mm, 0, 0⟩
  else Except.error "ValueError"

/-- `now.replace(hour=hh, minute=mm, second=0, microsecond=0)` — `replace`
re-runs the constructor validation, so it can raise `ValueError` too. -/
def pyReplaceHM (now : PyDateTime) (hh mm : Nat) : Except String PyDateTime :=
  mkDatetime now.year now.month now.day hh mm

/-- Lexicographic wall-clock comparison `dt <= now` (both operands carry
the same fixed tzinfo). -/
def pyLE (a b : PyDateTime) : Bool :=
  if a.year ≠ b.year then a.year < b.year
  else if a.month ≠ b.month then a.month < b.month
  else if a.day ≠ b.day then a.day < b.day
  else if a.hour ≠ b.hour then a.hour < b.hour
  else if a.minute ≠ b.minute then a.minute < b.minute
  else if a.second ≠ b.second then a.second < b.second
  else a.microsecond ≤ b.microsecond

/-- The next calendar day at the same time of day. -/
def nextDay (dt : PyDateTime) : PyDateTime :=
  if dt.day < daysInMonth dt.year dt.month then { dt with day := dt.day + 1 }
  else if dt.month < 12 then { dt with day := 1, month := dt.month + 1 }
  else { dt with day := 1, month := 1, year := dt.year + 1 }

/-- `dt + timedelta(days=n)`. -/
def pyAddDays (dt : PyDateTime) : Nat → PyDateTime
  | 0 => dt
  | n + 1 => pyAddDays (nextDay dt) n

/-- `dt + timedelta(minutes=k)`: whole-minute arithmetic with day carry. -/
def pyAddMinutes (dt : PyDateTime) (k : Nat) : PyDateTime :=
  let tot := dt.hour * 60 + dt.minute + k
  pyAddDays { dt with hour := tot % 1440 / 60, minute := tot % 60 } (tot / 1440)

/-! ## Timer parser (`parse_when`)

The three anchored regular expressions `TIME_HHMM`, `TIME_ABS`, `TIME_REL`
are translated into structural matchers on the character list (ASCII
digits; `\s` is Python's whitespace class). -/

def isPySpace (c : Char) : Bool :=
  c == ' ' || c == '\t' || c == '\n' || c == '\x0d' || c == '\x0b' || c == '\x0c'

def isDigitC (c : Char) : Bool := '0' ≤ c && c ≤ '9'

/-- Strip `\s*` from both ends (the anchored `^\s*` / `\s*$` of each
pattern). -/
def stripWS (l : List Char) : List Char :=
  ((l.dropWhile isPySpace).reverse.dropWhile isPySpace).reverse

/-- Numeric value of a digit string (`int(...)` on a matched group). -/
def digitsToNat (l : List Char) : Nat :=
  l.foldl (fun a c => a * 10 + (c.toNat - '0'.toNat)) 0

/-- `TIME_HHMM`: `^\s*(\d{1,2}):(\d{2})\s*$`, returning the two groups. -/
def matchHHMM (s : String) : Option (Nat × Nat) :=
  let t := stripWS s.toList
  let hs := t.takeWhile isDigitC
  let rest := t.dropWhile isDigitC
  if hs.length < 1 || 2 < hs.length then none
  else
    match rest with
    | ':' :: m1 :: m2 :: [] =>
        if isDigitC m1 && isDigitC m2 then
          some (digitsToNat hs, digitsToNat [m1, m2])
        else none
    | _ => none

/-- `TIME_ABS`: `^\s*(\d{4})-(\d{2})-(\d{2})\s+(\d{1,2}):(\d{2})\s*$`. -/
def matchABS (s : String) : Option (Nat × Nat × Nat × Nat × Nat) :=
  let t := stripWS s.toList
  let ys := t.takeWhile isDigitC
  let r1 := t.dropWhile isDigitC
  if ys.length ≠ 4 then none
  else
    match r1 with
    | '-' :: r2 =>
      let mos := r2.takeWhile isDigitC
      let r3 := r2.dropWhile isDigitC
      if mos.length ≠ 2 then none
      else
        match r3 with
        | '-' :: r4 =>
          let ds := r4.takeWhile isDigitC
          let r5 := r4.dropWhile isDigitC
          if ds.length ≠ 2 then none
          else
            let sp := r5.takeWhile isPySpace
            let r6 := r5.dropWhile isPySpace
            if sp.length < 1 then none
            else
              let hs := r6.takeWhile isDigitC
              let r7 := r6.dropWhile isDigitC
              if hs.length < 1 || 2 < hs.length then none
              else
                match r7 with
                | ':' :: m1 :: m2 :: [] =>
                    if isDigitC m1 && isDigitC m2 then
                      some (digitsToNat ys, digitsToNat mos, digitsToNat ds,
                            digitsToNat hs, digitsToNat [m1, m2])
                    else none
                | _ => none
        | _ => none
    | _ => none

/-- Unit alternation `(m|min|h|hr|d)` of `TIME_REL`, after
`.lower()`. -/
def relUnit (u : List Char) : Bool :=
  u == ['m'] || u == ['m', 'i', 'n'] || u == ['h'] || u == ['h', 'r'] || u == ['d']

/-- `TIME_REL`: `^\s*in\s+(\d+)\s*(m|min|h|hr|d)\s*$` with `re.IGNORECASE`;
returns the amount and the lower-cased unit. -/
def matchREL (s : String) : Option (Nat × List Char) :=
  let t := (stripWS s.toList).map Char.toLower
  match t with
  | 'i' :: 'n' :: r1 =>
    let sp := r1.takeWhile isPySpace
    let r2 := r1.dropWhile isPySpace
    if sp.length < 1 then none
    else
      let ns := r2.takeWhile isDigitC
      let r3 := r2.dropWhile isDigitC
      if ns.length < 1 then none
      else
        let u := r3.dropWhile isPySpace
        if relUnit u then some (digitsToNat ns, u) else none
  | _ => none

/-- `parse_when(s, now)`.  The result is `Except.error` exactly when the
Python function raises an uncaught exception; `Except.ok none` is the
"no match" return. The `TIME_ABS` branch wraps its constructor in
`try/except ValueError`, the `TIME_HHMM` branch does not guard its
`now.replace`. -/
def parse_when (s : String) (now : PyDateTime) :
    Except String (Option PyDateTime) :=
  match matchHHMM s with
  | some (hh, mm) =>
    match pyReplaceHM now hh mm with
    | Except.error e => Except.error e
    | Except.ok dt =>
        Except.ok (some (if pyLE dt now then pyAddDays dt 1 else dt))
  | none =>
  match matchABS s with
  | some (y, mo, d, hh, mm) =>
    match mkDatetime y mo d hh mm with
    | Except.ok dt => Except.ok (some dt)
    | Except.error _ => Except.ok none
  | none =>
  match matchREL s with
  | some (amount, u) =>
      if u == ['m'] || u == ['m', 'i', 'n'] then
        Except.ok (some (pyAddMinutes now amount))
      else if u == ['h'] || u == ['h', 'r'] then
        Except.ok (some (pyAddMinutes now (amount * 60)))
      else
        Except.ok (some (pyAddDays now amount))
  | none => Except.ok none

/-! ## Process state (`DRAFTS`, `SCHEDULES`, asyncio tasks)

Python drafts hold a *reference* to a list object, and
`add_media_to_draft` first mutates that object in place
(`draft.media.append(...)`) and then rebinds the attribute to a fresh
list (`draft.media = draft.media[-10:]` / `list(reversed(new_media))`).
To capture `Draft.copy`'s snapshot semantics faithfully, media lists live
in an explicit heap of list cells and a stored draft is a `DraftR`
holding a cell index.  Handlers are step functions on `Sys`; per §5 of
the specification all operations on one user's state are linearised, so
each handler (and each fired job body) is one atomic step. -/

/-- Heap of Python list objects. -/
abbrev Heap := List (List Entry)

/-- Dereference a cell (out-of-range reads never occur in reachable
states; they default to `[]`). -/
def readCell (σ : Heap) (r : Nat) : List Entry := σ.getD r []

/-- In-place mutation of a list object. -/
def writeCell (σ : Heap) (r : Nat) (v : List Entry) : Heap := σ.set r v

/-- A stored draft: its `text` string (immutable, rebound on update) and
the cell holding its `media` list. -/
structure DraftR where
  text : String
  mediaRef : Nat
deriving DecidableEq, Repr

/-- The `Draft` value a stored draft currently denotes. -/
def readDraft (σ : Heap) (d : DraftR) : Draft := ⟨d.text, readCell σ d.mediaRef⟩

/-- `Draft.copy`: `Draft(text=self.text, media=list(self.media))` — a
fresh list object with the same contents. -/
def copyDraft (σ : Heap) (d : DraftR) : Heap × DraftR :=
  (σ ++ [readCell σ d.mediaRef], ⟨d.text, σ.length⟩)

/-- `add_media_to_draft` on the heap: append mutates the current cell in
place, then the attribute is rebound to a fresh cell holding the final
list (see `mediaAfterAppend`). -/
def addMediaHeap (σ : Heap) (d : DraftR) (k : Kind) (fid : String) :
    Heap × DraftR :=
  let l1 := readCell σ d.mediaRef ++ [(k, fid)]
  let σ1 := writeCell σ d.mediaRef l1
  (σ1 ++ [mediaAfterAppend k l1], ⟨d.text, σ1.length⟩)

/-- One scheduled-publish task created by `cmd_timer` (the closure `job`
together with its `asyncio.Task` handle).  `payload` is the `draft` copy
captured by the closure, `when` the target instant. -/
structure TaskRec where
  uid : Nat
  when : PyDateTime
  payload : DraftR
  cancelled : Bool
  done : Bool
deriving DecidableEq, Repr

/-- `if not task.done(): task.cancel()` on task `tid`. -/
def cancelIfPending (ts : List TaskRec) (tid : Nat) : List TaskRec :=
  match ts.get? tid with
  | some t => if t.done then ts else ts.set tid { t with cancelled := true }
  | none => ts

/-- `old = SCHEDULES.get(uid); if old and not old.task.done():
old.task.cancel()` — the task list after cancelling the previous job, if
any. -/
def tasksAfterCancel (ts : List TaskRec) (sched : Option Nat) : List TaskRec :=
  match sched with
  | some tid => cancelIfPending ts tid
  | none => ts

/-- Whole-process state.  `tasks` records every task ever created
(indexed by creation order); `sched` is the `SCHEDULES` registry mapping
a user id to the index of its `ScheduledJob`'s task; `published` logs the
draft values handed to `publish_to_channel` against the target channel;
`notices` logs the messages sent back to the operator chat (UI echoes of
the media/text handlers are not logged). -/
structure Sys where
  heap : Heap
  drafts : Nat → Option DraftR
  tasks : List TaskRec
  sched : Nat → Option Nat
  published : List Draft
  notices : List (Nat × String)

/-- Pointwise map update. -/
def upd (f : Nat → Option α) (k : Nat) (v : Option α) : Nat → Option α :=
  fun n => if n = k then v else f n

/-- `get_draft(user_id)`: lazily create an empty draft (a fresh empty
list object) on first access. -/
def getDraftS (s : Sys) (uid : Nat) : Sys × DraftR :=
  match s.drafts uid with
  | some d => (s, d)
  | none =>
    let d : DraftR := ⟨"", s.heap.length⟩
    ({ s with heap := s.heap ++ [[]], drafts := upd s.drafts uid (some d) }, d)

/-- `on_photo` … `on_voice` (media part): `get_draft` then
`add_media_to_draft`.  A caption on the same message is modelled as a
separate `stepRecvText`. -/
def stepRecvMedia (s : Sys) (uid : Nat) (k : Kind) (fid : String) : Sys :=
  let (s1, d) := getDraftS s uid
  let (σ', d') := addMediaHeap s1.heap d k fid
  { s1 with heap := σ', drafts := upd s1.drafts uid (some d') }

/-- `on_text` / `set_text_from`: rebind `draft.text` (strings are
immutable; the media cell is untouched). -/
def stepRecvText (s : Sys) (uid : Nat) (txt : String) : Sys :=
  let (s1, d) := getDraftS s uid
  { s1 with drafts := upd s1.drafts uid (some ⟨txt, d.mediaRef⟩) }

/-- `cmd_timer` after a successful parse: copy the draft, refuse when the
copy is empty, cancel a pending previous job, create the new task and
register it.  (`when` is the instant `parse_when` returned.) -/
def stepTimer (s : Sys) (uid : Nat) (when : PyDateTime) : Sys :=
  let (s1, d) := getDraftS s uid
  let (σ2, snap) := copyDraft s1.heap d
  let s2 := { s1 with heap := σ2 }
  if (readDraft σ2 snap).is_empty then
    { s2 with notices := s2.notices ++ [(uid, "draft empty")] }
  else
    let ts := tasksAfterCancel s2.tasks (s2.sched uid)
    { s2 with
      tasks := ts ++ [⟨uid, when, snap, false, false⟩]
      sched := upd s2.sched uid (some ts.length)
      notices := s2.notices ++ [(uid, "scheduled")] }

/-- The body of `job()` running to completion after its sleep, as one
linearised step; `pub` is the outcome of `publish_to_channel`.  A
cancelled (or already finished) task's body does nothing
(`asyncio.CancelledError` → `pass`).  On success the payload is
published, the operator notified and the registry entry popped; on a
transport error the failure is reported — and the registry is NOT
popped (`SCHEDULES.pop` only runs on the success path). -/
def stepFire (s : Sys) (tid : Nat) (pub : Except String Unit) : Sys :=
  match s.tasks.get? tid with
  | none => s
  | some t =>
    if t.cancelled || t.done then s
    else
      match pub with
      | Except.ok _ =>
        { s with
          published := s.published ++ [readDraft s.heap t.payload]
          notices := s.notices ++ [(t.uid, "published by timer")]
          sched := upd s.sched t.uid none
          tasks := s.tasks.set tid { t with done := true } }
      | Except.error e =>
        { s with
          notices := s.notices ++ [(t.uid, "scheduled publish error: " ++ e)]
          tasks := s.tasks.set tid { t with done := true } }

/-- `SCHEDULES.pop(uid, None)` followed by
`if sched and not sched.task.done(): sched.task.cancel()`. -/
def popAndCancel (s : Sys) (uid : Nat) : Sys :=
  match s.sched uid with
  | none => s
  | some tid =>
    { s with sched := upd s.sched uid none, tasks := cancelIfPending s.tasks tid }

/-- `on_cb`, branch `"pub"`: refuse an empty draft; otherwise publish
with outcome `pub`.  Success resets the draft to a fresh `Draft()` and
pops/cancels a pending timer; failure leaves draft, heap and registry
untouched and only reports the error. -/
def stepPubNow (s : Sys) (uid : Nat) (pub : Except String Unit) : Sys :=
  let (s1, d) := getDraftS s uid
  if (readDraft s1.heap d).is_empty then
    { s1 with notices := s1.notices ++ [(uid, "nothing to publish")] }
  else
    match pub with
    | Except.ok _ =>
      let s2 := { s1 with
        published := s1.published ++ [readDraft s1.heap d]
        notices := s1.notices ++ [(uid, "published")] }
      let s3 := { s2 with
        heap := s2.heap ++ [[]]
        drafts := upd s2.drafts uid (some ⟨"", s2.heap.length⟩) }
      popAndCancel s3 uid
    | Except.error e =>
      { s1 with notices := s1.notices ++ [(uid, "publish error: " ++ e)] }

/-- `on_cb`, branch `"clr"`: `DRAFTS[uid] = Draft()`, then pop and cancel
a pending timer. -/
def stepClear (s : Sys) (uid : Nat) : Sys :=
  let s1 := { s with
    heap := s.heap ++ [[]]
    drafts := upd s.drafts uid (some ⟨"", s.heap.length⟩)
    notices := s.notices ++ [(uid, "draft cleared")] }
  popAndCancel s1 uid

/-- Draft-editing operations an operator can run between two timer
commands (C2 quantifies over these). -/
inductive EditOp where
  | media (uid : Nat) (k : Kind) (fid : String)
  | text (uid : Nat) (txt : String)
deriving DecidableEq, Repr

def stepEdit (s : Sys) : EditOp → Sys
  | EditOp.media uid k fid => stepRecvMedia s uid k fid
  | EditOp.text uid txt => stepRecvText s uid txt

def afterEdits (s : Sys) (es : List EditOp) : Sys := es.foldl stepEdit s

/-- Every stored draft points at a cell inside the heap. -/
def WFdrafts (s : Sys) : Prop :=
  ∀ uid d, s.drafts uid = some d → d.mediaRef < s.heap.length

/-- Cell `r` exists and is not the media cell of any stored draft — the
shape of a snapshot cell made by `Draft.copy`, which draft edits must
never write to. -/
def ProtectedRef (s : Sys) (r : Nat) : Prop :=
  r < s.heap.length ∧ ∀ uid d, s.drafts uid = some d → d.mediaRef ≠ r

/-- A small concrete system: the operator (user 1) has the non-empty
draft `⟨"hello", cell 0⟩` and one pending scheduled job (task 0) whose
snapshot payload lives in cell 1. -/
def sysC3 : Sys :=
  { heap := [[(Kind.photo, "p")], [(Kind.photo, "p")]]
    drafts := upd (fun _ => none) 1 (some ⟨"hello", 0⟩)
    tasks := [⟨1, ⟨2025, 1, 2, 9, 0, 0, 0⟩, ⟨"hello", 1⟩, false, false⟩]
    sched := upd (fun _ => none) 1 (some 0)
    published := []
    notices := [] }

/-- Concrete run for the C2 witness: user 1 schedules, adds a photo,
then schedules again. -/
def sysW : Sys :=
  { heap := [[(Kind.photo, "p1")]]
    drafts := upd (fun _ => none) 1 (some ⟨"hi", 0⟩)
    tasks := []
    sched := fun _ => none
    published := []
    notices := [] }

def wA : PyDateTime := ⟨2025, 1, 2, 9, 0, 0, 0⟩

def wB : PyDateTime := ⟨2025, 1, 3, 9, 0, 0, 0⟩

def sysW1 : Sys := stepTimer sysW 1 wA

def sysW2 : Sys := afterEdits sysW1 [EditOp.media 1 Kind.photo "p2"]

def sysW3 : Sys := stepTimer sysW2 1 wB

/-! ## Helper lemmas -/

theorem lastN_of_le {l : List α} {n : Nat} (h : l.length ≤ n) : lastN n l = l := by
  unfold lastN
  rw [Nat.sub_eq_zero_of_le h, List.drop_zero]

theorem lastN_length (n : Nat) (l : List α) :
    (lastN n l).length = min l.length n := by
  unfold lastN
  rw [List.length_drop]
  omega

/-- Trimming to the last `n`, appending one element and trimming again is
the same as appending and trimming once (`n ≥ 1`). -/
theorem lastN_concat (n : Nat) (hn : 1 ≤ n) (l : List α) (a : α) :
    lastN n (lastN n l ++ [a]) = lastN n (l ++ [a]) := by
  rcases le_or_lt l.length n with h | h
  · rw [lastN_of_le h]
  · unfold lastN
    have hX : (l.drop (l.length - n)).length = n := by
      rw [List.length_drop]; omega
    rw [List.length_append, List.length_append, hX]
    simp only [List.length_cons, List.length_nil]
    have h1 : n + (0 + 1) - n = 1 := by omega
    rw [h1]
    rw [List.drop_append_of_le_length (by omega : 1 ≤ (l.drop (l.length - n)).length)]
    rw [List.drop_append_of_le_length (by omega : l.length + (0 + 1) - n ≤ l.length)]
    rw [List.drop_drop]
    have h2 : l.length - n + 1 = l.length + (0 + 1) - n := by omega
    rw [h2]

/-- Folding photo/video additions from the empty draft retains exactly
the last ten additions. -/
theorem foldAdd_pv (ops : List Entry) (h : ∀ e ∈ ops, isPV e.1 = true) :
    (ops.foldl (fun d e => add_media_to_draft d e.1 e.2) ({} : Draft)).media
      = lastN 10 ops := by
  induction ops using List.reverseRecOn with
  | nil => rfl
  | append_singleton l a ih =>
    rw [List.foldl_append]
    have hmem : ∀ e ∈ l, isPV e.1 = true := fun e he => h e (by simp [he])
    have ha : isPV a.1 = true := h a (by simp)
    simp only [List.foldl_cons, List.foldl_nil]
    rw [add_media_to_draft, mediaAfterAppend]
    simp only [ha, if_pos]
    rw [ih hmem]
    rw [lastN_concat 10 (by omega)]

/-- Under a `seen` set whose coverage cannot recur (each non-photo/video
kind occurs at most once in `rl`), the collapse loop is a plain filter. -/
theorem collapseRev_eq_filter (rl : List Entry) (seen : List Kind)
    (h : ∀ e ∈ rl, isPV e.1 = false →
      rl.countP (fun e' => e'.1 == e.1) ≤ 1) :
    collapseRev rl seen
      = rl.filter (fun e => isPV e.1 || !(seen.contains e.1)) := by
  induction rl generalizing seen with
  | nil => rfl
  | cons e0 tl ih =>
    have htl : ∀ e ∈ tl, isPV e.1 = false →
        tl.countP (fun e' => e'.1 == e.1) ≤ 1 := by
      intro e he hpv
      have := h e (by simp [he]) hpv
      rw [List.countP_cons] at this
      omega
    by_cases hpv : isPV e0.1 = true
    · rw [collapseRev]
      simp only [hpv, if_pos]
      rw [List.filter_cons]
      simp only [hpv, Bool.true_or, if_pos]
      rw [ih seen htl]
    · have hpv' : isPV e0.1 = false := by
        cases hb : isPV e0.1
        · rfl
        · exact absurd hb hpv
      by_cases hseen : e0.1 ∈ seen
      · rw [collapseRev]
        simp only [hpv', Bool.false_eq_true, if_false, hseen, if_pos]
        rw [List.filter_cons]
        have : (isPV e0.1 || !(seen.contains e0.1)) = false := by
          simp [hpv', List.elem_iff, hseen]
        simp only [this, Bool.false_eq_true, if_false]
        exact ih seen htl
      · rw [collapseRev]
        simp only [hpv', Bool.false_eq_true, if_false, hseen, if_pos]
        rw [List.filter_cons]
        have hkeep : (isPV e0.1 || !(seen.contains e0.1)) = true := by
          simp [List.elem_iff, hseen]
        simp only [hkeep, if_pos]
        rw [ih (e0.1 :: seen) htl]
        congr 1
        apply List.filter_congr
        intro e he
        have hcount : tl.countP (fun e' => e'.1 == e0.1) = 0 := by
          have := h e0 (by simp) hpv'
          rw [List.countP_cons] at this
          simp only [beq_self_eq_true, if_pos] at this
          omega
        have hne : e.1 ≠ e0.1 := by
          intro heq
          have : 0 < tl.countP (fun e' => e'.1 == e0.1) :=
            List.countP_pos_iff.mpr ⟨e, he, by simp [heq]⟩
          omega
        simp [List.elem_iff, hne]


/-! ## C1 — photo/video trimming -/

/-- C1 counterexample: in a draft holding one document and nine photos,
adding a tenth photo leaves the photo/video count at exactly 10 (the
claimed trimming condition "more than 10" never fires), yet the document
entry is evicted — the trimming is not restricted to photo/video entries. -/
theorem album_trim_evicts_document :
    countPV (((⟨"", [(Kind.document, "d"), (Kind.photo, "p1"), (Kind.photo, "p2"),
        (Kind.photo, "p3"), (Kind.photo, "p4"), (Kind.photo, "p5"),
        (Kind.photo, "p6"), (Kind.photo, "p7"), (Kind.photo, "p8"),
        (Kind.photo, "p9")]⟩ : Draft).media ++ [(Kind.photo, "p10")])) = 10 ∧
    (Kind.document, "d") ∈ (⟨"", [(Kind.document, "d"), (Kind.photo, "p1"),
        (Kind.photo, "p2"), (Kind.photo, "p3"), (Kind.photo, "p4"),
        (Kind.photo, "p5"), (Kind.photo, "p6"), (Kind.photo, "p7"),
        (Kind.photo, "p8"), (Kind.photo, "p9")]⟩ : Draft).media ∧
    (Kind.document, "d") ∉
      (add_media_to_draft ⟨"", [(Kind.document, "d"), (Kind.photo, "p1"),
        (Kind.photo, "p2"), (Kind.photo, "p3"), (Kind.photo, "p4"),
        (Kind.photo, "p5"), (Kind.photo, "p6"), (Kind.photo, "p7"),
        (Kind.photo, "p8"), (Kind.photo, "p9")]⟩ Kind.photo "p10").media := by
  refine ⟨by decide, by decide, by decide⟩

/-- C1 (amended): a photo/video addition appends the new entry and then
truncates the WHOLE media list to its last 10 entries — when the total
entry count exceeds 10, the oldest entries are dropped regardless of
kind, so non-photo/video entries are not exempt; in particular at most
10 entries (hence at most 10 photo/video entries) remain. -/
theorem add_media_pv_trims_whole_list (d : Draft) (k : Kind) (fid : String)
    (hk : isPV k = true) :
    (add_media_to_draft d k fid).media <:+ (d.media ++ [(k, fid)]) ∧
    (add_media_to_draft d k fid).media.length
      = min (d.media.length + 1) 10 ∧
    countPV (add_media_to_draft d k fid).media ≤ 10 := by
  rw [add_media_to_draft, mediaAfterAppend]
  simp only [hk, if_pos]
  refine ⟨List.drop_suffix _ _, ?_, ?_⟩
  · rw [lastN_length, List.length_append]
    simp
  · calc countPV (lastN 10 (d.media ++ [(k, fid)]))
        ≤ (lastN 10 (d.media ++ [(k, fid)])).length := List.countP_le_length _
      _ ≤ 10 := by rw [lastN_length]; omega

theorem add_media_pv_trims_whole_list_witness :
    (add_media_to_draft ⟨"t", [(Kind.document, "d"), (Kind.photo, "p1"),
        (Kind.photo, "p2"), (Kind.photo, "p3"), (Kind.photo, "p4"),
        (Kind.photo, "p5"), (Kind.photo, "p6"), (Kind.photo, "p7"),
        (Kind.photo, "p8"), (Kind.photo, "p9")]⟩ Kind.photo "p10").media
        <:+ ((⟨"t", [(Kind.document, "d"), (Kind.photo, "p1"),
        (Kind.photo, "p2"), (Kind.photo, "p3"), (Kind.photo, "p4"),
        (Kind.photo, "p5"), (Kind.photo, "p6"), (Kind.photo, "p7"),
        (Kind.photo, "p8"), (Kind.photo, "p9")]⟩ : Draft).media
          ++ [(Kind.photo, "p10")]) ∧
    (add_media_to_draft ⟨"t", [(Kind.document, "d"), (Kind.photo, "p1"),
        (Kind.photo, "p2"), (Kind.photo, "p3"), (Kind.photo, "p4"),
        (Kind.photo, "p5"), (Kind.photo, "p6"), (Kind.photo, "p7"),
        (Kind.photo, "p8"), (Kind.photo, "p9")]⟩ Kind.photo "p10").media.length
      = min ((⟨"t", [(Kind.document, "d"), (Kind.photo, "p1"),
        (Kind.photo, "p2"), (Kind.photo, "p3"), (Kind.photo, "p4"),
        (Kind.photo, "p5"), (Kind.photo, "p6"), (Kind.photo, "p7"),
        (Kind.photo, "p8"), (Kind.photo, "p9")]⟩ : Draft).media.length + 1) 10 ∧
    countPV (add_media_to_draft ⟨"t", [(Kind.document, "d"), (Kind.photo, "p1"),
        (Kind.photo, "p2"), (Kind.photo, "p3"), (Kind.photo, "p4"),
        (Kind.photo, "p5"), (Kind.photo, "p6"), (Kind.photo, "p7"),
        (Kind.photo, "p8"), (Kind.photo, "p9")]⟩ Kind.photo "p10").media ≤ 10 :=
  add_media_pv_trims_whole_list _ Kind.photo "p10" (by decide)

/-! ## C5 — bounded FIFO album buffer -/

/-- C5: starting from an empty draft, for any sequence of photo/video
additions, after each prefix of the sequence the retained media list is
exactly the last 10 additions of that prefix (`lastN 10` — all of them
when fewer), in their original relative order, and its length never
exceeds 10. -/
theorem pv_only_additions_keep_last_ten (ops : List Entry)
    (h : ∀ e ∈ ops, isPV e.1 = true) (n : Nat) :
    ((ops.take n).foldl (fun d e => add_media_to_draft d e.1 e.2)
        ({} : Draft)).media = lastN 10 (ops.take n) ∧
    ((ops.take n).foldl (fun d e => add_media_to_draft d e.1 e.2)
        ({} : Draft)).media.length ≤ 10 := by
  have hsub : ∀ e ∈ ops.take n, isPV e.1 = true :=
    fun e he => h e (List.take_subset n ops he)
  have hmain := foldAdd_pv (ops.take n) hsub
  refine ⟨hmain, ?_⟩
  rw [hmain, lastN_length]
  omega

theorem pv_only_additions_keep_last_ten_witness :
    (([((Kind.photo : Kind), "1"), (Kind.video, "2"), (Kind.photo, "3"),
      (Kind.photo, "4"), (Kind.photo, "5"), (Kind.photo, "6"),
      (Kind.video, "7"), (Kind.photo, "8"), (Kind.photo, "9"),
      (Kind.photo, "10"), (Kind.photo, "11"), (Kind.photo, "12")].take
        12).foldl (fun d e => add_media_to_draft d e.1 e.2) ({} : Draft)
      |>.media)
      = lastN 10 ([((Kind.photo : Kind), "1"), (Kind.video, "2"),
      (Kind.photo, "3"), (Kind.photo, "4"), (Kind.photo, "5"),
      (Kind.photo, "6"), (Kind.video, "7"), (Kind.photo, "8"),
      (Kind.photo, "9"), (Kind.photo, "10"), (Kind.photo, "11"),
      (Kind.photo, "12")].take 12) ∧
    (([((Kind.photo : Kind), "1"), (Kind.video, "2"), (Kind.photo, "3"),
      (Kind.photo, "4"), (Kind.photo, "5"), (Kind.photo, "6"),
      (Kind.video, "7"), (Kind.photo, "8"), (Kind.photo, "9"),
      (Kind.photo, "10"), (Kind.photo, "11"), (Kind.photo, "12")].take
        12).foldl (fun d e => add_media_to_draft d e.1 e.2) ({} : Draft)
      |>.media.length) ≤ 10 :=
  pv_only_additions_keep_last_ten _ (by decide) 12

/-! ## C6 — single-slot kinds -/

/-- C6: adding an entry of a non-photo/video kind `k` to a draft that
(as every reachable draft does) holds at most one entry of each
non-photo/video kind removes exactly the previous entries of kind `k`
and appends the new one at the end: every photo/video entry and every
entry of another kind survives in place, and exactly one entry of kind
`k` — the one just added — remains.  Adding a document twice in a row is
the witness below. -/
theorem single_slot_kinds_collapse (d : Draft) (k : Kind) (fid : String)
    (hk : isPV k = false)
    (hinv : ∀ k2 : Kind, isPV k2 = false →
      d.media.countP (fun e => e.1 == k2) ≤ 1) :
    (add_media_to_draft d k fid).media
      = d.media.filter (fun e => e.1 != k) ++ [(k, fid)] ∧
    (add_media_to_draft d k fid).media.countP (fun e => e.1 == k) = 1 := by
  have hmedia : (add_media_to_draft d k fid).media
      = d.media.filter (fun e => e.1 != k) ++ [(k, fid)] := by
    rw [add_media_to_draft, mediaAfterAppend]
    simp only [hk, Bool.false_eq_true, if_false]
    rw [List.reverse_concat]
    rw [collapseRev]
    simp only [hk, Bool.false_eq_true, if_false, List.not_mem_nil, if_neg,
      not_false_iff]
    rw [collapseRev_eq_filter]
    · rw [List.filter_congr (q := fun e => e.1 != k)
        (by
          intro e _
          by_cases he : e.1 = k
          · simp [he, hk, List.elem_iff]
          · simp [he, List.elem_iff])]
      rw [List.filter_reverse, List.reverse_cons, List.reverse_reverse]
    · intro e he hpv
      rw [List.countP_reverse]
      exact hinv e.1 hpv
  refine ⟨hmedia, ?_⟩
  rw [hmedia, List.countP_append]
  have hz : (d.media.filter (fun e => e.1 != k)).countP
      (fun e => e.1 == k) = 0 := by
    rw [List.countP_eq_zero]
    intro e he
    have := (List.mem_filter.mp he).2
    simp at this ⊢
    exact this
  rw [hz]
  simp

theorem single_slot_kinds_collapse_witness :
    (add_media_to_draft
        (add_media_to_draft ⟨"", [(Kind.photo, "p1"), (Kind.video, "v1")]⟩
          Kind.document "d1") Kind.document "d2").media
      = (add_media_to_draft ⟨"", [(Kind.photo, "p1"), (Kind.video, "v1")]⟩
          Kind.document "d1").media.filter (fun e => e.1 != Kind.document)
        ++ [(Kind.document, "d2")] ∧
    (add_media_to_draft
        (add_media_to_draft ⟨"", [(Kind.photo, "p1"), (Kind.video, "v1")]⟩
          Kind.document "d1") Kind.document "d2").media.countP
        (fun e => e.1 == Kind.document) = 1 :=
  single_slot_kinds_collapse _ Kind.document "d2" (by decide)
    (by intro k2 _; cases k2 <;> decide)



/-! ## C4 — payload resolution -/

theorem enumFrom_map_mkItem (t : String) (l : List Entry) (n : Nat) :
    (List.enumFrom (n + 1) l).map (fun ie => mkItem t ie.1 ie.2)
      = l.map (fun e => MediaItem.mk e.1 e.2 none false) := by
  induction l generalizing n with
  | nil => rfl
  | cons a tl ih =>
    simp only [List.enumFrom, List.map_cons]
    rw [show mkItem t (n + 1) a = ⟨a.1, a.2, none, false⟩ from rfl, ih]

/-- The album list built by the enumerate loop: caption on index 0 only. -/
theorem enum_map_album (t : String) (e : Entry) (rest : List Entry) :
    (e :: rest).enum.map (fun ie => mkItem t ie.1 ie.2)
      = MediaItem.mk e.1 e.2 (some t) (t != "")
        :: rest.map (fun e2 => MediaItem.mk e2.1 e2.2 none false) := by
  rw [List.enum_cons, List.map_cons]
  rw [show mkItem t 0 e = ⟨e.1, e.2, some t, t != ""⟩ from rfl]
  rw [show (1 : Nat) = 0 + 1 from rfl, enumFrom_map_mkItem t rest 0]

/-- C4: the code's publish dispatch (`on_cb`'s empty-draft refusal plus
`publish_to_channel`, going through `draft_to_media_group`) computes the
four-way case split the specification describes: an album of all
photo/video entries in order with the text as caption of the first
element only when there are at least two of them, else a single item
from the most recent media entry with the text as caption, else a
text-only message, else nothing to publish. -/
theorem resolve_matches_spec (d : Draft) : resolvePublish d = resolveSpec d := by
  unfold resolvePublish resolveSpec draft_to_media_group
  rcases hpv : d.media.filter (fun e => isPV e.1) with _ | ⟨e, rest⟩
  · -- no photo/video entry
    simp only [hpv, List.length_nil]
    norm_num
    rcases hm : d.media with _ | ⟨a, tl⟩
    · by_cases ht : d.text = "" <;>
        simp [Draft.is_empty, hm, ht]
    · have hemp : d.is_empty = false := by
        simp [Draft.is_empty, hm]
      cases hlast : (a :: tl).getLast? with
      | none =>
        exact absurd (List.getLast?_eq_none_iff.mp hlast) (by simp)
      | some x =>
        simp [hemp, hlast, hm]
  · rcases rest with _ | ⟨e2, rest2⟩
    · -- exactly one photo/video entry
      have hmne : d.media ≠ [] := by
        intro h0; rw [h0] at hpv; simp at hpv
      have hemp : d.is_empty = false := by
        rw [Draft.is_empty]
        cases hb : d.media.isEmpty
        · simp
        · exact absurd (List.isEmpty_iff.mp hb) hmne
      simp only [hpv, List.length_cons, List.length_nil]
      norm_num
      cases hlast : d.media.getLast? with
      | none => exact absurd (List.getLast?_eq_none_iff.mp hlast) hmne
      | some x =>
        simp [hemp, hlast, hmne]
    · -- at least two photo/video entries: the album case
      simp only [hpv, List.length_cons]
      have hmne : d.media ≠ [] := by
        intro h0; rw [h0] at hpv; simp at hpv
      have hemp : d.is_empty = false := by
        rw [Draft.is_empty]
        cases hb : d.media.isEmpty
        · simp
        · exact absurd (List.isEmpty_iff.mp hb) hmne
      rw [if_neg (show ¬(d.is_empty = true) by rw [hemp]; exact Bool.false_ne_true)]
      rw [if_neg (show ¬(rest2.length + 1 + 1 < 2) by omega)]
      rw [if_pos (show 2 ≤ rest2.length + 1 + 1 by omega)]
      rw [enum_map_album]



/-! ## C8 / C9 — the timer parser -/

/-- C8: the input `"25:00"` matches the `TIME_HHMM` surface grammar, and
on it `parse_when` raises an uncaught `ValueError` (from
`now.replace(hour=25, ...)`; unlike the `TIME_ABS` branch, the `TIME_HHMM`
branch has no `try/except`), instead of returning "no match". -/
theorem parse_when_uncaught_value_error :
    matchHHMM "25:00" = some (25, 0) ∧
    parse_when "25:00" ⟨2025, 1, 1, 20, 0, 0, 0⟩
      = Except.error "ValueError" := by
  exact ⟨rfl, rfl⟩

/-- C9: on any input matching the `HH:MM` grammar with an in-range hour
and minute, and any valid reference instant `now`, `parse_when` returns
today's instant at that wall-clock time (seconds and microseconds
zeroed), rolled forward by exactly one calendar day when that instant is
not strictly after `now`. -/
theorem parse_when_hhmm_today_or_tomorrow (s : String) (now : PyDateTime)
    (hh mm : Nat) (hmatch : matchHHMM s = some (hh, mm))
    (hhh : hh ≤ 23) (hmm : mm ≤ 59)
    (hnow : validDT now.year now.month now.day 0 0 = true) :
    parse_when s now = Except.ok (some (
      if pyLE ⟨now.year, now.month, now.day, hh, mm, 0, 0⟩ now
      then nextDay ⟨now.year, now.month, now.day, hh, mm, 0, 0⟩
      else ⟨now.year, now.month, now.day, hh, mm, 0, 0⟩)) := by
  have hval : validDT now.year now.month now.day hh mm = true := by
    simp only [validDT, Bool.and_eq_true, decide_eq_true_eq] at hnow ⊢
    omega
  have hrep : pyReplaceHM now hh mm
      = Except.ok ⟨now.year, now.month, now.day, hh, mm, 0, 0⟩ := by
    unfold pyReplaceHM mkDatetime
    rw [if_pos hval]
  have hone : pyAddDays ⟨now.year, now.month, now.day, hh, mm, 0, 0⟩ 1
      = nextDay ⟨now.year, now.month, now.day, hh, mm, 0, 0⟩ := rfl
  unfold parse_when
  rw [hmatch]
  simp only [hrep, hone]

theorem parse_when_hhmm_today_or_tomorrow_witness :
    matchHHMM "18:30" = some (18, 30) ∧
    parse_when "18:30" ⟨2025, 1, 1, 20, 0, 0, 0⟩
      = Except.ok (some ⟨2025, 1, 2, 18, 30, 0, 0⟩) := by
  refine ⟨rfl, ?_⟩
  have h := parse_when_hhmm_today_or_tomorrow "18:30" ⟨2025, 1, 1, 20, 0, 0, 0⟩
    18 30 rfl (by decide) (by decide) (by decide)
  exact h.trans rfl



/-! ## C2 / C3 / C7 / C10 — scheduler lemmas -/

theorem readCell_append_lt (σ : Heap) (x : List Entry) (r : Nat)
    (h : r < σ.length) : readCell (σ ++ [x]) r = readCell σ r := by
  unfold readCell
  rw [List.getD_eq_get?, List.getD_eq_get?, List.get?_append h]

theorem readCell_append_self (σ : Heap) (x : List Entry) :
    readCell (σ ++ [x]) σ.length = x := by
  unfold readCell
  rw [List.getD_eq_get?, List.get?_concat_length]
  rfl

theorem readCell_set_ne (σ : Heap) (r2 r : Nat) (v : List Entry)
    (h : r2 ≠ r) : readCell (writeCell σ r2 v) r = readCell σ r := by
  unfold readCell writeCell
  rw [List.getD_eq_get?, List.getD_eq_get?, List.get?_set_ne _ _ h]

theorem cancelIfPending_length (ts : List TaskRec) (tid : Nat) :
    (cancelIfPending ts tid).length = ts.length := by
  unfold cancelIfPending
  cases ts.get? tid with
  | none => rfl
  | some t =>
    by_cases hd : t.done
    · simp [hd]
    · simp [hd, List.length_set]

theorem tasksAfterCancel_length (ts : List TaskRec) (o : Option Nat) :
    (tasksAfterCancel ts o).length = ts.length := by
  unfold tasksAfterCancel
  cases o with
  | none => rfl
  | some tid => exact cancelIfPending_length ts tid

theorem cancelIfPending_get_self (ts : List TaskRec) (tid : Nat) (t : TaskRec)
    (h : ts.get? tid = some t) (hdone : t.done = false) :
    (cancelIfPending ts tid).get? tid = some { t with cancelled := true } := by
  unfold cancelIfPending
  rw [h]
  simp only [hdone, Bool.false_eq_true, if_false]
  rw [List.get?_set_eq, h]
  rfl

theorem upd_self (f : Nat → Option α) (k : Nat) (v : Option α) :
    upd f k v k = v := by
  simp [upd]

theorem upd_ne (f : Nat → Option α) (k : Nat) (v : Option α) (n : Nat)
    (h : n ≠ k) : upd f k v n = f n := by
  simp [upd, h]

theorem getDraftS_some (s : Sys) (uid : Nat) (d : DraftR)
    (hd : s.drafts uid = some d) : getDraftS s uid = (s, d) := by
  unfold getDraftS
  rw [hd]

theorem getDraftS_none (s : Sys) (uid : Nat) (hd : s.drafts uid = none) :
    getDraftS s uid =
      ({ s with heap := s.heap ++ [[]]
                drafts := upd s.drafts uid (some ⟨"", s.heap.length⟩) },
       (⟨"", s.heap.length⟩ : DraftR)) := by
  unfold getDraftS
  rw [hd]

theorem stepRecvMedia_some (s : Sys) (uid : Nat) (k : Kind) (fid : String)
    (d : DraftR) (hd : s.drafts uid = some d) :
    stepRecvMedia s uid k fid = { s with
      heap := writeCell s.heap d.mediaRef (readCell s.heap d.mediaRef ++ [(k, fid)])
        ++ [mediaAfterAppend k (readCell s.heap d.mediaRef ++ [(k, fid)])]
      drafts := upd s.drafts uid (some ⟨d.text,
        (writeCell s.heap d.mediaRef
          (readCell s.heap d.mediaRef ++ [(k, fid)])).length⟩) } := by
  unfold stepRecvMedia addMediaHeap
  rw [getDraftS_some s uid d hd]

theorem stepRecvMedia_none (s : Sys) (uid : Nat) (k : Kind) (fid : String)
    (hd : s.drafts uid = none) :
    stepRecvMedia s uid k fid = { s with
      heap := writeCell (s.heap ++ [[]]) s.heap.length
          (readCell (s.heap ++ [[]]) s.heap.length ++ [(k, fid)])
        ++ [mediaAfterAppend k (readCell (s.heap ++ [[]]) s.heap.length ++ [(k, fid)])]
      drafts := upd (upd s.drafts uid (some ⟨"", s.heap.length⟩)) uid
        (some ⟨"", (writeCell (s.heap ++ [[]]) s.heap.length
          (readCell (s.heap ++ [[]]) s.heap.length ++ [(k, fid)])).length⟩) } := by
  unfold stepRecvMedia addMediaHeap
  rw [getDraftS_none s uid hd]

theorem stepRecvText_some (s : Sys) (uid : Nat) (txt : String)
    (d : DraftR) (hd : s.drafts uid = some d) :
    stepRecvText s uid txt
      = { s with drafts := upd s.drafts uid (some ⟨txt, d.mediaRef⟩) } := by
  unfold stepRecvText
  rw [getDraftS_some s uid d hd]

theorem stepRecvText_none (s : Sys) (uid : Nat) (txt : String)
    (hd : s.drafts uid = none) :
    stepRecvText s uid txt = { s with
      heap := s.heap ++ [[]]
      drafts := upd (upd s.drafts uid (some ⟨"", s.heap.length⟩)) uid
        (some ⟨txt, s.heap.length⟩) } := by
  unfold stepRecvText
  rw [getDraftS_none s uid hd]

/-- One draft edit never touches a protected (snapshot) cell, keeps it
protected, and leaves tasks, registry and channel log unchanged. -/
theorem stepEdit_preserves (s : Sys) (e : EditOp) (r : Nat)
    (h : ProtectedRef s r) :
    ProtectedRef (stepEdit s e) r ∧
    readCell (stepEdit s e).heap r = readCell s.heap r ∧
    (stepEdit s e).tasks = s.tasks ∧
    (stepEdit s e).sched = s.sched ∧
    (stepEdit s e).published = s.published := by
  obtain ⟨hr, hdr⟩ := h
  cases e with
  | media uid k fid =>
    cases hd : s.drafts uid with
    | some d =>
      have hne : d.mediaRef ≠ r := hdr uid d hd
      rw [show stepEdit s (EditOp.media uid k fid) = stepRecvMedia s uid k fid
        from rfl, stepRecvMedia_some s uid k fid d hd]
      dsimp only
      refine ⟨⟨?_, ?_⟩, ?_, rfl, rfl, rfl⟩
      · simp only [List.length_append, writeCell, List.length_set,
          List.length_cons, List.length_nil]
        omega
      · intro uid2 d2 hd2
        dsimp only at hd2
        by_cases huid : uid2 = uid
        · subst huid
          rw [upd_self] at hd2
          cases hd2
          simp only [writeCell, List.length_set]
          omega
        · rw [upd_ne _ _ _ _ huid] at hd2
          exact hdr uid2 d2 hd2
      · rw [readCell_append_lt, readCell_set_ne _ _ _ _ hne]
        rw [writeCell, List.length_set]
        exact hr
    | none =>
      rw [show stepEdit s (EditOp.media uid k fid) = stepRecvMedia s uid k fid
        from rfl, stepRecvMedia_none s uid k fid hd]
      dsimp only
      refine ⟨⟨?_, ?_⟩, ?_, rfl, rfl, rfl⟩
      · simp only [List.length_append, writeCell, List.length_set,
          List.length_cons, List.length_nil]
        omega
      · intro uid2 d2 hd2
        dsimp only at hd2
        by_cases huid : uid2 = uid
        · subst huid
          rw [upd_self] at hd2
          cases hd2
          simp only [writeCell, List.length_set, List.length_append,
            List.length_cons, List.length_nil]
          omega
        · rw [upd_ne _ _ _ _ huid, upd_ne _ _ _ _ huid] at hd2
          exact hdr uid2 d2 hd2
      · rw [readCell_append_lt, readCell_set_ne, readCell_append_lt _ _ _ hr]
        · omega
        · rw [writeCell, List.length_set, List.length_append]
          simp only [List.length_cons, List.length_nil]
          omega
  | text uid txt =>
    cases hd : s.drafts uid with
    | some d =>
      rw [show stepEdit s (EditOp.text uid txt) = stepRecvText s uid txt
        from rfl, stepRecvText_some s uid txt d hd]
      dsimp only
      refine ⟨⟨hr, ?_⟩, rfl, rfl, rfl, rfl⟩
      intro uid2 d2 hd2
      dsimp only at hd2
      by_cases huid : uid2 = uid
      · subst huid
        rw [upd_self] at hd2
        cases hd2
        exact hdr uid2 d hd
      · rw [upd_ne _ _ _ _ huid] at hd2
        exact hdr uid2 d2 hd2
    | none =>
      rw [show stepEdit s (EditOp.text uid txt) = stepRecvText s uid txt
        from rfl, stepRecvText_none s uid txt hd]
      dsimp only
      refine ⟨⟨?_, ?_⟩, ?_, rfl, rfl, rfl⟩
      · simp only [List.length_append, List.length_cons, List.length_nil]
        omega
      · intro uid2 d2 hd2
        dsimp only at hd2
        by_cases huid : uid2 = uid
        · subst huid
          rw [upd_self] at hd2
          cases hd2
          dsimp only
          omega
        · rw [upd_ne _ _ _ _ huid, upd_ne _ _ _ _ huid] at hd2
          exact hdr uid2 d2 hd2
      · exact readCell_append_lt _ _ _ hr


/-- A whole edit sequence preserves protected cells, their contents, and
the scheduler state. -/
theorem edits_preserve (es : List EditOp) (s : Sys) (r : Nat)
    (h : ProtectedRef s r) :
    ProtectedRef (afterEdits s es) r ∧
    readCell (afterEdits s es).heap r = readCell s.heap r ∧
    (afterEdits s es).tasks = s.tasks ∧
    (afterEdits s es).sched = s.sched ∧
    (afterEdits s es).published = s.published := by
  induction es generalizing s with
  | nil => exact ⟨h, rfl, rfl, rfl, rfl⟩
  | cons e tl ih =>
    have h1 := stepEdit_preserves s e r h
    have h2 := ih (stepEdit s e) h1.1
    have hfold : afterEdits s (e :: tl) = afterEdits (stepEdit s e) tl := rfl
    rw [hfold]
    refine ⟨h2.1, ?_, ?_, ?_, ?_⟩
    · rw [h2.2.1, h1.2.1]
    · rw [h2.2.2.1, h1.2.2.1]
    · rw [h2.2.2.2.1, h1.2.2.2.1]
    · rw [h2.2.2.2.2, h1.2.2.2.2]

/-- `cmd_timer` on an existing, non-empty draft: allocate the snapshot
cell, cancel a pending previous job, append and register the new task. -/
theorem stepTimer_some_nonempty (s : Sys) (uid : Nat) (d : DraftR)
    (w : PyDateTime) (hd : s.drafts uid = some d)
    (hne : (readDraft s.heap d).is_empty = false) :
    stepTimer s uid w = { s with
      heap := s.heap ++ [readCell s.heap d.mediaRef]
      tasks := tasksAfterCancel s.tasks (s.sched uid)
        ++ [⟨uid, w, ⟨d.text, s.heap.length⟩, false, false⟩]
      sched := upd s.sched uid
        (some (tasksAfterCancel s.tasks (s.sched uid)).length)
      notices := s.notices ++ [(uid, "scheduled")] } := by
  unfold stepTimer copyDraft
  rw [getDraftS_some s uid d hd]
  dsimp only
  have hc : readDraft (s.heap ++ [readCell s.heap d.mediaRef])
      ⟨d.text, s.heap.length⟩ = readDraft s.heap d := by
    unfold readDraft
    rw [readCell_append_self]
  rw [hc, hne]
  simp only [Bool.false_eq_true, if_false]

theorem stepFire_cancelled (s : Sys) (tid : Nat) (t : TaskRec)
    (pub : Except String Unit) (ht : s.tasks.get? tid = some t)
    (hc : t.cancelled = true) : stepFire s tid pub = s := by
  unfold stepFire
  rw [ht]
  simp [hc]

theorem stepFire_done (s : Sys) (tid : Nat) (t : TaskRec)
    (pub : Except String Unit) (ht : s.tasks.get? tid = some t)
    (hdn : t.done = true) : stepFire s tid pub = s := by
  unfold stepFire
  rw [ht]
  simp [hdn]

theorem stepFire_pending_ok (s : Sys) (tid : Nat) (t : TaskRec)
    (ht : s.tasks.get? tid = some t) (hc : t.cancelled = false)
    (hdn : t.done = false) :
    stepFire s tid (Except.ok ()) = { s with
      published := s.published ++ [readDraft s.heap t.payload]
      notices := s.notices ++ [(t.uid, "published by timer")]
      sched := upd s.sched t.uid none
      tasks := s.tasks.set tid { t with done := true } } := by
  unfold stepFire
  rw [ht]
  simp [hc, hdn]

theorem stepFire_pending_error (s : Sys) (tid : Nat) (t : TaskRec)
    (msg : String) (ht : s.tasks.get? tid = some t)
    (hc : t.cancelled = false) (hdn : t.done = false) :
    stepFire s tid (Except.error msg) = { s with
      notices := s.notices ++ [(t.uid, "scheduled publish error: " ++ msg)]
      tasks := s.tasks.set tid { t with done := true } } := by
  unfold stepFire
  rw [ht]
  simp [hc, hdn]

theorem popAndCancel_some (s : Sys) (uid tid : Nat)
    (hs : s.sched uid = some tid) :
    popAndCancel s uid = { s with sched := upd s.sched uid none
                                  tasks := cancelIfPending s.tasks tid } := by
  unfold popAndCancel
  rw [hs]

theorem popAndCancel_drafts (s : Sys) (uid : Nat) :
    (popAndCancel s uid).drafts = s.drafts := by
  unfold popAndCancel
  cases s.sched uid <;> rfl

theorem popAndCancel_heap (s : Sys) (uid : Nat) :
    (popAndCancel s uid).heap = s.heap := by
  unfold popAndCancel
  cases s.sched uid <;> rfl

theorem stepPubNow_ok (s : Sys) (uid : Nat) (d : DraftR)
    (hd : s.drafts uid = some d)
    (hne : (readDraft s.heap d).is_empty = false) :
    stepPubNow s uid (Except.ok ()) = popAndCancel { s with
      published := s.published ++ [readDraft s.heap d]
      notices := s.notices ++ [(uid, "published")]
      heap := s.heap ++ [[]]
      drafts := upd s.drafts uid (some ⟨"", s.heap.length⟩) } uid := by
  unfold stepPubNow
  rw [getDraftS_some s uid d hd]
  dsimp only
  rw [hne]
  simp only [Bool.false_eq_true, if_false]

theorem stepPubNow_error (s : Sys) (uid : Nat) (d : DraftR) (msg : String)
    (hd : s.drafts uid = some d)
    (hne : (readDraft s.heap d).is_empty = false) :
    stepPubNow s uid (Except.error msg)
      = { s with notices := s.notices ++ [(uid, "publish error: " ++ msg)] } := by
  unfold stepPubNow
  rw [getDraftS_some s uid d hd]
  dsimp only
  rw [hne]
  simp only [Bool.false_eq_true, if_false]



/-- C2: schedule, edit, schedule again.  After the first `cmd_timer` call
(job registered as task `tid1` with a `Draft.copy` snapshot) and any
sequence of draft edits: (a) job 1 is still pending and its payload still
reads exactly as the draft did at the first schedule call — the edits did
not touch the snapshot; after the second `cmd_timer` call: (b) job 1 is
cancelled, (c) firing job 1 has no effect whatsoever (it can never
publish), and (d) a new distinct job is registered whose payload reads as
the draft at the second call, and firing it publishes exactly that
value. -/
theorem scheduled_job_snapshot_and_supersede
    (s0 : Sys) (uid : Nat) (d0 d2 : DraftR) (w1 w2 : PyDateTime)
    (es : List EditOp) (tid1 : Nat)
    (hwf : WFdrafts s0)
    (hd0 : s0.drafts uid = some d0)
    (hne0 : (readDraft s0.heap d0).is_empty = false)
    (htid1 : (stepTimer s0 uid w1).sched uid = some tid1)
    (hd2 : (afterEdits (stepTimer s0 uid w1) es).drafts uid = some d2)
    (hne2 : (readDraft (afterEdits (stepTimer s0 uid w1) es).heap d2).is_empty
      = false) :
    (∃ t1, (afterEdits (stepTimer s0 uid w1) es).tasks.get? tid1 = some t1 ∧
       t1.cancelled = false ∧
       readDraft (afterEdits (stepTimer s0 uid w1) es).heap t1.payload
         = readDraft s0.heap d0) ∧
    (∃ t1b, (stepTimer (afterEdits (stepTimer s0 uid w1) es) uid w2).tasks.get?
         tid1 = some t1b ∧ t1b.cancelled = true) ∧
    (∀ pub, stepFire (stepTimer (afterEdits (stepTimer s0 uid w1) es) uid w2)
         tid1 pub
       = stepTimer (afterEdits (stepTimer s0 uid w1) es) uid w2) ∧
    (∃ tid2 t2,
       (stepTimer (afterEdits (stepTimer s0 uid w1) es) uid w2).sched uid
         = some tid2 ∧
       tid2 ≠ tid1 ∧
       (stepTimer (afterEdits (stepTimer s0 uid w1) es) uid w2).tasks.get? tid2
         = some t2 ∧
       readDraft (stepTimer (afterEdits (stepTimer s0 uid w1) es) uid
           w2).heap t2.payload
         = readDraft (afterEdits (stepTimer s0 uid w1) es).heap d2 ∧
       (stepFire (stepTimer (afterEdits (stepTimer s0 uid w1) es) uid w2) tid2
           (Except.ok ())).published
         = (stepTimer (afterEdits (stepTimer s0 uid w1) es) uid w2).published
           ++ [readDraft (afterEdits (stepTimer s0 uid w1) es).heap d2]) := by
  have e1 := stepTimer_some_nonempty s0 uid d0 w1 hd0 hne0
  have htid1v : tid1 = (tasksAfterCancel s0.tasks (s0.sched uid)).length := by
    rw [e1] at htid1
    dsimp only at htid1
    rw [upd_self] at htid1
    exact (Option.some.inj htid1).symm
  have hprot : ProtectedRef (stepTimer s0 uid w1) s0.heap.length := by
    rw [e1]
    refine ⟨?_, ?_⟩
    · dsimp only
      rw [List.length_append]
      simp
    · intro uid2 dx hdx
      dsimp only at hdx
      have := hwf uid2 dx hdx
      omega
  have hed := edits_preserve es (stepTimer s0 uid w1) s0.heap.length hprot
  have hs2tasks : (afterEdits (stepTimer s0 uid w1) es).tasks
      = tasksAfterCancel s0.tasks (s0.sched uid)
        ++ [⟨uid, w1, ⟨d0.text, s0.heap.length⟩, false, false⟩] := by
    rw [hed.2.2.1, e1]
  have hs2sched : (afterEdits (stepTimer s0 uid w1) es).sched uid
      = some tid1 := by
    rw [hed.2.2.2.1, e1]
    dsimp only
    rw [upd_self, htid1v]
  have hs2cell : readCell (afterEdits (stepTimer s0 uid w1) es).heap
      s0.heap.length = readCell s0.heap d0.mediaRef := by
    rw [hed.2.1, e1]
    dsimp only
    exact readCell_append_self _ _
  have hget1 : (afterEdits (stepTimer s0 uid w1) es).tasks.get? tid1
      = some ⟨uid, w1, ⟨d0.text, s0.heap.length⟩, false, false⟩ := by
    rw [hs2tasks, htid1v]
    exact List.get?_concat_length _ _
  have htid1lt : tid1 < (afterEdits (stepTimer s0 uid w1) es).tasks.length := by
    rcases List.get?_eq_some.mp hget1 with ⟨hl, _⟩
    exact hl
  have e3 := stepTimer_some_nonempty (afterEdits (stepTimer s0 uid w1) es)
    uid d2 w2 hd2 hne2
  have hcancget : (cancelIfPending
        (afterEdits (stepTimer s0 uid w1) es).tasks tid1).get? tid1
      = some ⟨uid, w1, ⟨d0.text, s0.heap.length⟩, true, false⟩ :=
    cancelIfPending_get_self _ tid1 _ hget1 rfl
  have hs3tasks : (stepTimer (afterEdits (stepTimer s0 uid w1) es) uid w2).tasks
      = cancelIfPending (afterEdits (stepTimer s0 uid w1) es).tasks tid1
        ++ [⟨uid, w2, ⟨d2.text,
             (afterEdits (stepTimer s0 uid w1) es).heap.length⟩,
           false, false⟩] := by
    rw [e3]
    dsimp only
    rw [hs2sched]
    rfl
  have hget1b : (stepTimer (afterEdits (stepTimer s0 uid w1) es) uid
        w2).tasks.get? tid1
      = some ⟨uid, w1, ⟨d0.text, s0.heap.length⟩, true, false⟩ := by
    rw [hs3tasks]
    rw [List.get?_append]
    · exact hcancget
    · rw [cancelIfPending_length]
      exact htid1lt
  refine ⟨⟨_, hget1, rfl, ?_⟩, ⟨_, hget1b, rfl⟩, ?_, ?_⟩
  · unfold readDraft
    dsimp only
    rw [hs2cell]
  · intro pub
    exact stepFire_cancelled _ tid1 _ pub hget1b rfl
  · have hget2 : (stepTimer (afterEdits (stepTimer s0 uid w1) es) uid
          w2).tasks.get? ((afterEdits (stepTimer s0 uid w1) es).tasks.length)
        = some ⟨uid, w2, ⟨d2.text,
            (afterEdits (stepTimer s0 uid w1) es).heap.length⟩,
          false, false⟩ := by
      rw [hs3tasks]
      rw [show (afterEdits (stepTimer s0 uid w1) es).tasks.length
          = (cancelIfPending (afterEdits (stepTimer s0 uid w1) es).tasks
              tid1).length from (cancelIfPending_length _ _).symm]
      exact List.get?_concat_length _ _
    have hreads3 : readDraft (stepTimer (afterEdits (stepTimer s0 uid w1) es)
          uid w2).heap
        ⟨d2.text, (afterEdits (stepTimer s0 uid w1) es).heap.length⟩
        = readDraft (afterEdits (stepTimer s0 uid w1) es).heap d2 := by
      rw [e3]
      unfold readDraft
      dsimp only
      rw [readCell_append_self]
    refine ⟨(afterEdits (stepTimer s0 uid w1) es).tasks.length, _, ?_, ?_,
      hget2, ?_, ?_⟩
    · rw [e3]
      dsimp only
      rw [upd_self, hs2sched]
      dsimp only [tasksAfterCancel]
      rw [cancelIfPending_length]
    · omega
    · exact hreads3
    · rw [stepFire_pending_ok _ _ _ hget2 rfl rfl]
      dsimp only
      rw [hreads3]

theorem scheduled_job_snapshot_and_supersede_witness :
    (∃ t1, sysW2.tasks.get? 0 = some t1 ∧ t1.cancelled = false ∧
       readDraft sysW2.heap t1.payload = readDraft sysW.heap ⟨"hi", 0⟩) ∧
    (∃ t1b, sysW3.tasks.get? 0 = some t1b ∧ t1b.cancelled = true) ∧
    (∀ pub, stepFire sysW3 0 pub = sysW3) ∧
    (∃ tid2 t2, sysW3.sched 1 = some tid2 ∧ tid2 ≠ 0 ∧
       sysW3.tasks.get? tid2 = some t2 ∧
       readDraft sysW3.heap t2.payload = readDraft sysW2.heap ⟨"hi", 2⟩ ∧
       (stepFire sysW3 tid2 (Except.ok ())).published
         = sysW3.published ++ [readDraft sysW2.heap ⟨"hi", 2⟩]) := by
  have hwf : WFdrafts sysW := by
    intro uid d h
    by_cases hu : uid = 1
    · subst hu
      rw [show sysW.drafts 1 = some ⟨"hi", 0⟩ from rfl] at h
      cases h
      decide
    · rw [show sysW.drafts uid = upd (fun _ => none) 1 (some ⟨"hi", 0⟩) uid
        from rfl, upd_ne _ _ _ _ hu] at h
      exact Option.noConfusion h
  exact scheduled_job_snapshot_and_supersede sysW 1 ⟨"hi", 0⟩ ⟨"hi", 2⟩ wA wB
    [EditOp.media 1 Kind.photo "p2"] 0 hwf rfl rfl rfl rfl rfl



/-- C3 counterexample: in `sysC3` user 1 has a pending job registered
under key 1; after its fire fails with a transport error the registry
STILL holds the entry (`SCHEDULES.pop` only runs on the success path of
`job()`), while the claim (and the specification) say the job is removed
from the registry. -/
theorem failed_fire_keeps_registry_entry :
    sysC3.sched 1 = some 0 ∧
    sysC3.tasks.get? 0
      = some ⟨1, ⟨2025, 1, 2, 9, 0, 0, 0⟩, ⟨"hello", 1⟩, false, false⟩ ∧
    (stepFire sysC3 0 (Except.error "network down")).sched 1 = some 0 ∧
    (stepFire sysC3 0 (Except.error "network down")).notices
      = [(1, "scheduled publish error: network down")] := by
  exact ⟨rfl, rfl, rfl, rfl⟩

/-- C3 (amended): when a scheduled job's publish fails at fire time, the
failure is reported to the job's operator and nothing is retried (the
task is finished and firing it again does nothing, and nothing is
published), but the job is NOT removed from the scheduler registry — the
stale `SCHEDULES` entry survives. -/
theorem fire_failure_no_retry_reported (s : Sys) (tid : Nat) (t : TaskRec)
    (msg : String) (ht : s.tasks.get? tid = some t)
    (hc : t.cancelled = false) (hdn : t.done = false) :
    (stepFire s tid (Except.error msg)).sched = s.sched ∧
    (stepFire s tid (Except.error msg)).published = s.published ∧
    (stepFire s tid (Except.error msg)).notices
      = s.notices ++ [(t.uid, "scheduled publish error: " ++ msg)] ∧
    (∀ pub, stepFire (stepFire s tid (Except.error msg)) tid pub
      = stepFire s tid (Except.error msg)) := by
  rw [stepFire_pending_error s tid t msg ht hc hdn]
  refine ⟨rfl, rfl, rfl, ?_⟩
  intro pub
  refine stepFire_done _ tid { t with done := true } pub ?_ rfl
  dsimp only
  rw [List.get?_set_eq, ht]
  rfl

theorem fire_failure_no_retry_reported_witness :
    (stepFire sysC3 0 (Except.error "boom")).sched = sysC3.sched ∧
    (stepFire sysC3 0 (Except.error "boom")).published = sysC3.published ∧
    (stepFire sysC3 0 (Except.error "boom")).notices
      = sysC3.notices ++ [(1, "scheduled publish error: " ++ "boom")] ∧
    (∀ pub, stepFire (stepFire sysC3 0 (Except.error "boom")) 0 pub
      = stepFire sysC3 0 (Except.error "boom")) :=
  fire_failure_no_retry_reported sysC3 0
    ⟨1, ⟨2025, 1, 2, 9, 0, 0, 0⟩, ⟨"hello", 1⟩, false, false⟩ "boom" rfl rfl rfl

/-- C7: on an immediate publish of an existing non-empty draft, a
transport failure leaves the draft store and the heap exactly as they
were (the draft survives for a retry), while a successful publish — and
likewise an explicit clear — rebinds the user's entry to a fresh `Draft()`
that reads as the empty draft (the key itself persists: the store still
maps the user to a draft). -/
theorem draft_reset_on_publish_and_clear (s : Sys) (uid : Nat) (d : DraftR)
    (hd : s.drafts uid = some d)
    (hne : (readDraft s.heap d).is_empty = false) :
    (∀ msg, (stepPubNow s uid (Except.error msg)).drafts = s.drafts ∧
       (stepPubNow s uid (Except.error msg)).heap = s.heap) ∧
    (∃ d2, (stepPubNow s uid (Except.ok ())).drafts uid = some d2 ∧
       readDraft (stepPubNow s uid (Except.ok ())).heap d2
         = { text := "", media := [] }) ∧
    (∃ d3, (stepClear s uid).drafts uid = some d3 ∧
       readDraft (stepClear s uid).heap d3 = { text := "", media := [] }) := by
  refine ⟨?_, ?_, ?_⟩
  · intro msg
    rw [stepPubNow_error s uid d msg hd hne]
    exact ⟨rfl, rfl⟩
  · rw [stepPubNow_ok s uid d hd hne]
    refine ⟨⟨"", s.heap.length⟩, ?_, ?_⟩
    · rw [popAndCancel_drafts]
      dsimp only
      exact upd_self _ _ _
    · rw [popAndCancel_heap]
      unfold readDraft
      dsimp only
      rw [readCell_append_self]
  · have hcl : stepClear s uid = popAndCancel { s with
        heap := s.heap ++ [[]]
        drafts := upd s.drafts uid (some ⟨"", s.heap.length⟩)
        notices := s.notices ++ [(uid, "draft cleared")] } uid := rfl
    rw [hcl]
    refine ⟨⟨"", s.heap.length⟩, ?_, ?_⟩
    · rw [popAndCancel_drafts]
      dsimp only
      exact upd_self _ _ _
    · rw [popAndCancel_heap]
      unfold readDraft
      dsimp only
      rw [readCell_append_self]

theorem draft_reset_on_publish_and_clear_witness :
    (∀ msg, (stepPubNow sysC3 1 (Except.error msg)).drafts = sysC3.drafts ∧
       (stepPubNow sysC3 1 (Except.error msg)).heap = sysC3.heap) ∧
    (∃ d2, (stepPubNow sysC3 1 (Except.ok ())).drafts 1 = some d2 ∧
       readDraft (stepPubNow sysC3 1 (Except.ok ())).heap d2
         = { text := "", media := [] }) ∧
    (∃ d3, (stepClear sysC3 1).drafts 1 = some d3 ∧
       readDraft (stepClear sysC3 1).heap d3 = { text := "", media := [] }) :=
  draft_reset_on_publish_and_clear sysC3 1 ⟨"hello", 0⟩ rfl rfl

/-- C10: when a pending job exists for the user, a successful
publish-now and an explicit clear-draft both pop the registry entry and
cancel the pending task, on top of resetting the draft. -/
theorem publish_and_clear_cancel_pending_job (s : Sys) (uid : Nat)
    (d : DraftR) (tid : Nat) (t : TaskRec)
    (hd : s.drafts uid = some d)
    (hne : (readDraft s.heap d).is_empty = false)
    (hs : s.sched uid = some tid)
    (ht : s.tasks.get? tid = some t) (hpend : t.done = false) :
    ((stepPubNow s uid (Except.ok ())).sched uid = none ∧
     (stepPubNow s uid (Except.ok ())).tasks.get? tid
       = some { t with cancelled := true }) ∧
    ((stepClear s uid).sched uid = none ∧
     (stepClear s uid).tasks.get? tid = some { t with cancelled := true }) := by
  constructor
  · rw [stepPubNow_ok s uid d hd hne]
    rw [popAndCancel_some _ uid tid (by dsimp only; exact hs)]
    dsimp only
    exact ⟨upd_self _ _ _, cancelIfPending_get_self s.tasks tid t ht hpend⟩
  · have hcl : stepClear s uid = popAndCancel { s with
        heap := s.heap ++ [[]]
        drafts := upd s.drafts uid (some ⟨"", s.heap.length⟩)
        notices := s.notices ++ [(uid, "draft cleared")] } uid := rfl
    rw [hcl]
    rw [popAndCancel_some _ uid tid (by dsimp only; exact hs)]
    dsimp only
    exact ⟨upd_self _ _ _, cancelIfPending_get_self s.tasks tid t ht hpend⟩

theorem publish_and_clear_cancel_pending_job_witness :
    ((stepPubNow sysC3 1 (Except.ok ())).sched 1 = none ∧
     (stepPubNow sysC3 1 (Except.ok ())).tasks.get? 0
       = some ⟨1, ⟨2025, 1, 2, 9, 0, 0, 0⟩, ⟨"hello", 1⟩, true, false⟩) ∧
    ((stepClear sysC3 1).sched 1 = none ∧
     (stepClear sysC3 1).tasks.get? 0
       = some ⟨1, ⟨2025, 1, 2, 9, 0, 0, 0⟩, ⟨"hello", 1⟩, true, false⟩) :=
  publish_and_clear_cancel_pending_job sysC3 1 ⟨"hello", 0⟩ 0
    ⟨1, ⟨2025, 1, 2, 9, 0, 0, 0⟩, ⟨"hello", 1⟩, false, false⟩ rfl rfl rfl rfl rfl


end Postbot
